import Mathlib

/-!
Verification of `docs/build-index.py`: a one-shot script that patches the
upstream `swagger-ui-dist/index.html`.  Strings are embedded as `List Char`
(Python text); `str.split(sep)` / `sep.join(...)` for a one-character
separator become `splitChar` / `joinChar` below, with the same semantics
(`split` never returns an empty list; splitting the empty string yields
one empty part).
-/

/-- Python `s.split(sep)` for a single-character separator `sep`. -/
def splitChar (sep : Char) : List Char → List (List Char)
  | [] => [[]]
  | c :: cs =>
    if c = sep then [] :: splitChar sep cs
    else
      match splitChar sep cs with
      | [] => [[c]]
      | p :: ps => (c :: p) :: ps

/-- Python `sep.join(parts)` for a single-character separator `sep`. -/
def joinChar (sep : Char) : List (List Char) → List Char
  | [] => []
  | [p] => p
  | p :: ps => p ++ sep :: joinChar sep ps

theorem splitChar_ne_nil (sep : Char) (l : List Char) : splitChar sep l ≠ [] := by
  cases l with
  | nil => simp [splitChar]
  | cons c cs =>
    simp only [splitChar]
    split
    · simp
    · split <;> simp

theorem joinChar_cons (sep : Char) (p : List Char) (ps : List (List Char)) (h : ps ≠ []) :
    joinChar sep (p :: ps) = p ++ sep :: joinChar sep ps := by
  cases ps with
  | nil => exact absurd rfl h
  | cons q qs => rfl

/-- `join` is a left inverse of `split`: Python's
`sep.join(s.split(sep)) == s`. -/
theorem joinChar_splitChar (sep : Char) (l : List Char) :
    joinChar sep (splitChar sep l) = l := by
  induction l with
  | nil => rfl
  | cons c cs ih =>
    simp only [splitChar]
    by_cases h : c = sep
    · rw [if_pos h, joinChar_cons sep [] _ (splitChar_ne_nil sep cs), ih, h]
      rfl
    · rw [if_neg h]
      rcases hs : splitChar sep cs with _ | ⟨p, ps⟩
      · exact absurd hs (splitChar_ne_nil sep cs)
      · cases ps with
        | nil =>
          simp only [joinChar]
          have := ih
          rw [hs] at this
          simp only [joinChar] at this
          rw [this]
        | cons q qs =>
          rw [joinChar_cons sep _ _ (by simp), List.cons_append]
          rw [← joinChar_cons sep p (q :: qs) (by simp), ← hs, ih]

/-- If `a` contains no separator, splitting `a ++ sep :: b` pulls `a` off as
the first part. -/
theorem splitChar_append_sep (sep : Char) (a b : List Char)
    (ha : ∀ c ∈ a, c ≠ sep) :
    splitChar sep (a ++ sep :: b) = a :: splitChar sep b := by
  induction a with
  | nil => simp [splitChar]
  | cons c cs ih =>
    have hc : c ≠ sep := ha c (List.mem_cons_self c cs)
    have ih' := ih (fun x hx => ha x (List.mem_cons_of_mem c hx))
    simp only [List.cons_append, splitChar, if_neg hc, List.append_eq, ih']

/-- If `a` contains no separator, it splits into a single part. -/
theorem splitChar_no_sep (sep : Char) (a : List Char) (ha : ∀ c ∈ a, c ≠ sep) :
    splitChar sep a = [a] := by
  induction a with
  | nil => rfl
  | cons c cs ih =>
    have hc : c ≠ sep := ha c (List.mem_cons_self c cs)
    have ih' := ih (fun x hx => ha x (List.mem_cons_of_mem c hx))
    simp only [splitChar, if_neg hc, ih']

/-- `rewrite_link` from `build-index.py` lines 39–46: split on `/`, assert the
first part is `.`, and join back with the two vendor segments inserted.  The
`assert` is embedded as the `none` branch. -/
def rewrite_link (link_str : List Char) : Option (List Char) :=
  let link_parts := splitChar '/' link_str
  if link_parts.head? = some ".".data then
    some (joinChar '/' (".".data :: "node_modules".data :: "swagger-ui-dist".data
      :: link_parts.tail))
  else
    none


/-- The fixed replacement initializer text assigned at `build-index.py`
line 102 (`init_scripts[0].string = \'\'\'...\'\'\'`), byte for byte; braces and
single quotes appear as `\x7b`, `\x7d`, `\x27` escapes. -/
def replacement_template : List Char :=
  ("\nwindow.onload = function() \x7b\n    var parseQuery = function(queryString) \x7b\n        var query = \x7b\x7d;\n        var pairs = (queryString.charAt(0) === \x27?\x27 ? queryString.substr(1) : queryString).split(\x27&\x27);\n        for (var i = 0; i < pairs.length; ++i) \x7b\n            var pair = pairs[i].split(\x27=\x27);\n            query[decodeURIComponent(pair[0])] = decodeURIComponent(pair[1] || \x27\x27);\n        \x7d\n        return query;\n    \x7d;\n\n    var query = parseQuery(document.location.search);\n\n    var urls = [];\n\n    if (document.location.protocol == \x27file:\x27) \x7b\n        urls.push(\x7b\n            url: \x27http://localhost:8890/openapi_v3.json\x27,\n            name: \x27localhost:8890\x27,\n        \x7d);\n    \x7d\n\n    if (query.encircleUrl != null) \x7b\n        urls.push(\x7b\n            url: query.encircleUrl,\n            name: query.encircleUrl,\n        \x7d);\n    \x7d\n\n    urls.push(\x7b\n        url: \x27https://api.encircleapp.com/openapi_v3.json\x27,\n        name: \x27api.encircleapp.com\x27,\n    \x7d);\n\n    var ui = SwaggerUIBundle(\x7b\n        urls: urls,\n        dom_id: \x27#swagger-ui\x27,\n        defaultModelRendering: \x27model\x27,\n        validatorUrl: null,\n        presets: [\n            SwaggerUIBundle.presets.apis,\n            SwaggerUIStandalonePreset\n        ],\n        plugins: [\n            SwaggerUIBundle.plugins.DownloadUrl\n        ],\n        layout: \"StandaloneLayout\"\n    \x7d);\n\x7d;\n").data

/-- An element of the parsed HTML tree, as far as the script inspects it:
tag name, attribute list (BeautifulSoup exposes attributes as a dict; we
keep first-key-wins lookup and in-place update), and the element's text
content (`tag.get_text()` / `tag.string`). -/
structure Tag where
  name : String
  attrs : List (String × List Char)
  text : List Char
  deriving DecidableEq, Repr

/-- Attribute lookup, `tag['href']` / `tag.has_attr(...)`. -/
def Tag.getAttr (t : Tag) (k : String) : Option (List Char) :=
  (t.attrs.find? (fun a => a.1 = k)).map (fun a => a.2)

/-- Update the value stored under `k`, keeping its position (Python dict
assignment semantics; appends when absent). -/
def setPair (k : String) (v : List Char) : List (String × List Char) → List (String × List Char)
  | [] => [(k, v)]
  | (k', v') :: rest => if k' = k then (k, v) :: rest else (k', v') :: setPair k v rest

/-- In-place attribute assignment, `tag['href'] = v`. -/
def Tag.setAttr (t : Tag) (k : String) (v : List Char) : Tag :=
  { t with attrs := setPair k v t.attrs }

/-- The parsed document, as far as the script touches it: the head's title
element (`none` when the document has no title) and every element in
document order. -/
structure Doc where
  title : Option (List Char)
  tags : List Tag
  deriving DecidableEq, Repr

/-- How a run of the script dies before writing output.  `rewriteAssert` and
`initCountAssert` are the two Python `assert` statements (lines 41 and 100);
`titleNullAccess` is the unhandled `AttributeError` raised at line 53 when
`soup.head.title` is `None`. -/
inductive Err where
  | titleNullAccess
  | rewriteAssert
  | initCountAssert
  deriving DecidableEq, Repr

/-- Whether the abort is one of the script's `assert` statements (as opposed
to an unhandled attribute access on `None`). -/
def Err.isAssert : Err → Bool
  | .titleNullAccess => false
  | .rewriteAssert => true
  | .initCountAssert => true

/-- The anchored filter `re.compile(r'^\./')` used by both `find_all` calls:
`.search` on an attribute value succeeds exactly when the value starts with
`./`. -/
def startsDotSlash : List Char → Bool
  | c :: c' :: _ => c = '.' && c' = '/'
  | _ => false

theorem startsDotSlash_iff (v : List Char) :
    startsDotSlash v = true ↔ ∃ rest, v = '.' :: '/' :: rest := by
  cases v with
  | nil => simp [startsDotSlash]
  | cons c cs =>
    cases cs with
    | nil => simp [startsDotSlash]
    | cons c' rest =>
      simp only [startsDotSlash, Bool.and_eq_true, decide_eq_true_eq]
      constructor
      · rintro ⟨rfl, rfl⟩; exact ⟨rest, rfl⟩
      · rintro ⟨r, he⟩
        injection he with h1 h2
        injection h2 with h2 h3
        exact ⟨h1, h2⟩

/-- One element's fate under the `link` loop (lines 60–61): a `link` whose
`href` matches `^\./` gets `rewrite_link` applied; everything else is left
alone.  `rewrite_link`'s `assert` surfaces as `rewriteAssert`. -/
def linkStep (t : Tag) : Except Err Tag :=
  if t.name = "link" then
    match t.getAttr "href" with
    | some v =>
      if startsDotSlash v then
        match rewrite_link v with
        | some v' => .ok (t.setAttr "href" v')
        | none => .error .rewriteAssert
      else .ok t
    | none => .ok t
  else .ok t

/-- One element's fate under the `script` loop (lines 68–69), same shape as
`linkStep` but on the `src` attribute. -/
def scriptStep (t : Tag) : Except Err Tag :=
  if t.name = "script" then
    match t.getAttr "src" with
    | some v =>
      if startsDotSlash v then
        match rewrite_link v with
        | some v' => .ok (t.setAttr "src" v')
        | none => .error .rewriteAssert
      else .ok t
    | none => .ok t
  else .ok t

/-- A `for` loop over all elements, mutating each in place: the fallible
element-wise map. -/
def mapExcept (f : Tag → Except Err Tag) : List Tag → Except Err (List Tag)
  | [] => .ok []
  | t :: ts =>
    match f t with
    | .error e => .error e
    | .ok t' =>
      match mapExcept f ts with
      | .error e => .error e
      | .ok ts' => .ok (t' :: ts')

/-- Python's `\s` class for `str` patterns (`Py_UNICODE_ISSPACE`, the same
set as `str.isspace` per code point): the ASCII whitespace `[ \t\n\r\f\v]`
together with the file/group/record/unit separators U+001C–U+001F, NEL
U+0085, NBSP U+00A0, OGHAM SPACE U+1680, the typographic spaces
U+2000–U+200A, LINE/PARAGRAPH SEPARATOR U+2028/U+2029, NARROW NBSP U+202F,
MATH SPACE U+205F and IDEOGRAPHIC SPACE U+3000. -/
def isSpace (c : Char) : Bool :=
  (0x9 ≤ c.toNat && c.toNat ≤ 0xd) || c.toNat = 0x20
    || (0x1c ≤ c.toNat && c.toNat ≤ 0x1f) || c.toNat = 0x85 || c.toNat = 0xa0
    || c.toNat = 0x1680 || (0x2000 ≤ c.toNat && c.toNat ≤ 0x200a)
    || c.toNat = 0x2028 || c.toNat = 0x2029 || c.toNat = 0x202f
    || c.toNat = 0x205f || c.toNat = 0x3000

/-- Literal-matching helper: when `l = pat ++ r`, return the remainder `r`. -/
def dropLit : List Char → List Char → Option (List Char)
  | [], l => some l
  | _ :: _, [] => none
  | p :: ps, c :: cs => if c = p then dropLit ps cs else none

/-- Does `pat` followed by `\s*` followed by `after` match at the head of
`l`?  This is the shape of both regexes in `is_initializer_script`
(`window\.onload\s*=` and `SwaggerUIBundle\s*\(`). -/
def matchHere (pat : List Char) (after : Char) (l : List Char) : Bool :=
  match dropLit pat l with
  | none => false
  | some r =>
    match r.dropWhile (fun c => isSpace c) with
    | [] => false
    | c :: _ => c = after

/-- `re.search` for the pattern `pat\s*after`: try every starting
position. -/
def reSearch (pat : List Char) (after : Char) : List Char → Bool
  | [] => matchHere pat after []
  | c :: cs => matchHere pat after (c :: cs) || reSearch pat after cs

/-- `is_initializer_script` from `build-index.py` lines 71–97: a `script`
element with no `src` whose text matches `window\.onload\s*=` and
`SwaggerUIBundle\s*\(`. -/
def is_initializer_script (tag : Tag) : Bool :=
  if tag.name ≠ "script" then false
  else if (tag.getAttr "src").isSome then false
  else if ¬ reSearch "window.onload".data '=' tag.text then false
  else if ¬ reSearch "SwaggerUIBundle".data '(' tag.text then false
  else true

/-- `init_scripts[0].string = ...`: replace the first element satisfying `p`
(the only one, once the `assert` has passed), leave the rest alone. -/
def replaceFirst (p : Tag → Bool) (f : Tag → Tag) : List Tag → List Tag
  | [] => []
  | t :: ts => if p t then f t :: ts else t :: replaceFirst p f ts

/-- The module-level pipeline of `build-index.py` lines 48–155, in program
order: set the title (an `AttributeError` when there is none), rewrite
`link` hrefs, rewrite `script` srcs, find the initializer scripts, assert
there is exactly one, replace its text with the fixed template.  The
returned `Doc` is what gets serialized to the output file; an `Err` means
the process aborted before the output file was opened. -/
def run (d : Doc) : Except Err Doc :=
  match d.title with
  | none => .error .titleNullAccess
  | some _ =>
    let d' : Doc := { d with title := some "Encircle Public API".data }
    match mapExcept linkStep d'.tags with
    | .error e => .error e
    | .ok tags₁ =>
      match mapExcept scriptStep tags₁ with
      | .error e => .error e
      | .ok tags₂ =>
        let init_scripts := tags₂.filter (fun t => is_initializer_script t)
        if init_scripts.length = 1 then
          .ok { d' with
                tags := replaceFirst (fun t => is_initializer_script t)
                  (fun t => { t with text := replacement_template }) tags₂ }
        else
          .error .initCountAssert

/-- JS object assignment `query[k] = v` on the plain object built by
`parseQuery`: update the value in place, append when the key is new. -/
def setKey (k v : List Char) : List (List Char × List Char) → List (List Char × List Char)
  | [] => [(k, v)]
  | (k', v') :: rest => if k' = k then (k, v) :: rest else (k', v') :: setKey k v rest

/-- JS property read `query[k]` on the object built by `parseQuery`. -/
def getKey (k : List Char) : List (List Char × List Char) → Option (List Char)
  | [] => none
  | (k', v) :: rest => if k' = k then some v else getKey k rest

/-- The `parseQuery` function of the emitted initializer template
(`build-index.py` lines 104–112): strip a leading `?`, split on `&`, split
each pair on `=`, record `decode(pair[0]) ↦ decode(pair[1] || '')`.
`decode` stands for the browser's `decodeURIComponent` builtin, which is not
part of this repository. -/
def parseQuery (decode : List Char → List Char) (queryString : List Char) :
    List (List Char × List Char) :=
  let stripped :=
    if queryString.head? = some '?' then queryString.tail else queryString
  let pairs := splitChar '&' stripped
  pairs.foldl (fun query p =>
    let pair := splitChar '=' p
    setKey (decode (pair.headD [])) (decode ((pair.drop 1).headD [])) query) []

/-- Core of the rewrite: on a value starting `./`, `rewrite_link` succeeds
and inserts the vendor prefix, keeping the rest of the path verbatim. -/
theorem rewrite_link_dotSlash (rest : List Char) :
    rewrite_link ('.' :: '/' :: rest)
      = some ("./node_modules/swagger-ui-dist/".data ++ rest) := by
  have hdot : ('.' : Char) ≠ '/' := by decide
  have hsplit : splitChar '/' ('.' :: '/' :: rest) = ['.'] :: splitChar '/' rest := by
    simp [splitChar, hdot]
  unfold rewrite_link
  rw [hsplit]
  rw [if_pos (show (['.'] :: splitChar '/' rest).head? = some ".".data from rfl)]
  congr 1
  show joinChar '/' (".".data :: "node_modules".data :: "swagger-ui-dist".data
    :: splitChar '/' rest) = _
  rw [joinChar_cons _ _ _ (by simp), joinChar_cons _ _ _ (by simp),
      joinChar_cons _ _ _ (splitChar_ne_nil '/' rest), joinChar_splitChar]
  rfl

/-- C1: for every `link` whose `href` starts `./` and every `script` whose
`src` starts `./`, the rewrite turns `./rest` into
`./node_modules/swagger-ui-dist/rest`: exactly the two fixed segments are
inserted after the leading `.`, and every following segment is kept
unchanged and in order. -/
theorem c1_vendor_prefix_inserted (v rest : List Char) (t u : Tag)
    (hv : v = '.' :: '/' :: rest)
    (ht : t.name = "link") (htv : t.getAttr "href" = some v)
    (hu : u.name = "script") (huv : u.getAttr "src" = some v) :
    rewrite_link v = some ("./node_modules/swagger-ui-dist/".data ++ rest)
    ∧ linkStep t = .ok (t.setAttr "href" ("./node_modules/swagger-ui-dist/".data ++ rest))
    ∧ scriptStep u = .ok (u.setAttr "src" ("./node_modules/swagger-ui-dist/".data ++ rest))
    ∧ splitChar '/' ("./node_modules/swagger-ui-dist/".data ++ rest)
      = ".".data :: "node_modules".data :: "swagger-ui-dist".data :: splitChar '/' rest := by
  subst hv
  have hsd : startsDotSlash ('.' :: '/' :: rest) = true := by simp [startsDotSlash]
  refine ⟨rewrite_link_dotSlash rest, ?_, ?_, ?_⟩
  · unfold linkStep
    rw [if_pos ht, htv]
    simp only [hsd, if_true, rewrite_link_dotSlash rest]
  · unfold scriptStep
    rw [if_pos hu, huv]
    simp only [hsd, if_true, rewrite_link_dotSlash rest]
  · have h1 : "./node_modules/swagger-ui-dist/".data ++ rest
        = ['.'] ++ '/' :: ("node_modules".data ++ '/' :: ("swagger-ui-dist".data
            ++ '/' :: rest)) := rfl
    rw [h1, splitChar_append_sep _ _ _ (by decide), splitChar_append_sep _ _ _ (by decide),
        splitChar_append_sep _ _ _ (by decide)]

theorem c1_witness :
    ("./swagger-ui.css".data = '.' :: '/' :: "swagger-ui.css".data)
    ∧ (rewrite_link "./swagger-ui.css".data
        = some ("./node_modules/swagger-ui-dist/".data ++ "swagger-ui.css".data)
      ∧ linkStep { name := "link", attrs := [("href", "./swagger-ui.css".data)], text := [] }
          = .ok (Tag.setAttr { name := "link", attrs := [("href", "./swagger-ui.css".data)], text := [] }
              "href" ("./node_modules/swagger-ui-dist/".data ++ "swagger-ui.css".data))
      ∧ scriptStep { name := "script", attrs := [("src", "./swagger-ui.css".data)], text := [] }
          = .ok (Tag.setAttr { name := "script", attrs := [("src", "./swagger-ui.css".data)], text := [] }
              "src" ("./node_modules/swagger-ui-dist/".data ++ "swagger-ui.css".data))
      ∧ splitChar '/' ("./node_modules/swagger-ui-dist/".data ++ "swagger-ui.css".data)
          = ".".data :: "node_modules".data :: "swagger-ui-dist".data
            :: splitChar '/' "swagger-ui.css".data) :=
  ⟨rfl, c1_vendor_prefix_inserted "./swagger-ui.css".data "swagger-ui.css".data
    { name := "link", attrs := [("href", "./swagger-ui.css".data)], text := [] }
    { name := "script", attrs := [("src", "./swagger-ui.css".data)], text := [] }
    rfl rfl rfl rfl rfl⟩

theorem linkStep_ok_self (t : Tag)
    (h : t.name = "link" → ∀ v, t.getAttr "href" = some v → startsDotSlash v = false) :
    linkStep t = .ok t := by
  unfold linkStep
  by_cases hn : t.name = "link"
  · rw [if_pos hn]
    rcases hv : t.getAttr "href" with _ | v
    · rfl
    · simp [h hn v hv]
  · rw [if_neg hn]

theorem scriptStep_ok_self (t : Tag)
    (h : t.name = "script" → ∀ v, t.getAttr "src" = some v → startsDotSlash v = false) :
    scriptStep t = .ok t := by
  unfold scriptStep
  by_cases hn : t.name = "script"
  · rw [if_pos hn]
    rcases hv : t.getAttr "src" with _ | v
    · rfl
    · simp [h hn v hv]
  · rw [if_neg hn]

/-- C8: the rewrite is not idempotent.  One application to a `./…` path
inserts the vendor prefix once; a second application inserts it again, so
the second result is strictly longer than (hence different from) the
first. -/
theorem c8_rewrite_not_idempotent (p : List Char) (h : startsDotSlash p = true) :
    ∃ q r, rewrite_link p = some q ∧ rewrite_link q = some r
      ∧ q ≠ r ∧ p.length < q.length ∧ q.length < r.length := by
  obtain ⟨rest, rfl⟩ := (startsDotSlash_iff p).mp h
  refine ⟨"./node_modules/swagger-ui-dist/".data ++ rest,
    "./node_modules/swagger-ui-dist/".data ++ ("node_modules/swagger-ui-dist/".data ++ rest),
    rewrite_link_dotSlash rest, ?_, ?_, ?_, ?_⟩
  · have h2 : "./node_modules/swagger-ui-dist/".data ++ rest
        = '.' :: '/' :: ("node_modules/swagger-ui-dist/".data ++ rest) := rfl
    rw [h2, rewrite_link_dotSlash]
  · intro he
    have := congrArg List.length he
    simp [List.length_append] at this
  · simp [List.length_append]
  · simp [List.length_append]

theorem c8_witness :
    ∃ q r, rewrite_link "./a/b".data = some q ∧ rewrite_link q = some r
      ∧ q ≠ r ∧ "./a/b".data.length < q.length ∧ q.length < r.length :=
  c8_rewrite_not_idempotent "./a/b".data (by decide)

theorem dropLit_eq_some (pat : List Char) :
    ∀ l r, dropLit pat l = some r ↔ l = pat ++ r := by
  induction pat with
  | nil => intro l r; simp [dropLit]
  | cons p ps ih =>
    intro l r
    cases l with
    | nil => simp [dropLit]
    | cons c cs =>
      simp only [dropLit, List.cons_append, List.cons.injEq]
      by_cases h : c = p
      · rw [if_pos h, ih]
        simp [h]
      · rw [if_neg h]
        simp [h]

theorem dropWhile_space_append (ws rest : List Char) (h : ∀ c ∈ ws, isSpace c = true) :
    (ws ++ rest).dropWhile (fun c => isSpace c) = rest.dropWhile (fun c => isSpace c) := by
  induction ws with
  | nil => rfl
  | cons c cs ih =>
    have hc := h c (List.mem_cons_self c cs)
    simp only [List.cons_append, List.dropWhile_cons, hc, if_true]
    exact ih (fun x hx => h x (List.mem_cons_of_mem c hx))

theorem matchHere_iff (pat : List Char) (after : Char) (hafter : isSpace after = false)
    (l : List Char) :
    matchHere pat after l = true ↔
      ∃ ws post, (∀ c ∈ ws, isSpace c = true) ∧ l = pat ++ ws ++ after :: post := by
  constructor
  · intro h
    rcases hd : dropLit pat l with _ | r
    · simp only [matchHere, hd] at h
      exact absurd h (by simp)
    · simp only [matchHere, hd] at h
      rcases hw : r.dropWhile (fun c => isSpace c) with _ | ⟨c, rest⟩
      · simp only [hw] at h
        exact absurd h (by simp)
      · simp only [hw] at h
        have hc : c = after := by simpa using h
        refine ⟨r.takeWhile (fun c => isSpace c), rest, ?_, ?_⟩
        · intro x hx
          simpa using List.mem_takeWhile_imp hx
        · have hr : l = pat ++ r := (dropLit_eq_some pat l r).mp hd
          have hrr : r = r.takeWhile (fun c => isSpace c) ++ after :: rest := by
            rw [← hc, ← hw]
            exact (List.takeWhile_append_dropWhile (p := fun c => isSpace c) (l := r)).symm
          rw [hr]
          conv_lhs => rw [hrr]
          simp
  · rintro ⟨ws, post, hws, rfl⟩
    have hd : dropLit pat (pat ++ ws ++ after :: post) = some (ws ++ after :: post) := by
      rw [dropLit_eq_some]
      simp
    simp only [matchHere, hd, dropWhile_space_append ws _ hws]
    simp [List.dropWhile_cons, hafter]

theorem reSearch_iff (pat : List Char) (after : Char) (hafter : isSpace after = false)
    (l : List Char) :
    reSearch pat after l = true ↔
      ∃ pre ws post, (∀ c ∈ ws, isSpace c = true)
        ∧ l = pre ++ pat ++ ws ++ after :: post := by
  induction l with
  | nil =>
    constructor
    · intro h
      rw [show reSearch pat after [] = matchHere pat after [] from rfl,
        matchHere_iff pat after hafter] at h
      obtain ⟨ws, post, hws, hl⟩ := h
      exact ⟨[], ws, post, hws, by simp [hl]⟩
    · rintro ⟨pre, ws, post, hws, hl⟩
      exact absurd hl (by simp)
  | cons c cs ih =>
    rw [show reSearch pat after (c :: cs)
      = (matchHere pat after (c :: cs) || reSearch pat after cs) from rfl]
    constructor
    · intro h
      rcases Bool.or_eq_true_iff.mp h with h1 | h2
      · obtain ⟨ws, post, hws, hl⟩ := (matchHere_iff pat after hafter _).mp h1
        exact ⟨[], ws, post, hws, by simpa using hl⟩
      · obtain ⟨pre, ws, post, hws, hl⟩ := ih.mp h2
        exact ⟨c :: pre, ws, post, hws, by simp [hl]⟩
    · rintro ⟨pre, ws, post, hws, hl⟩
      rcases pre with _ | ⟨p0, pre'⟩
      · apply Bool.or_eq_true_iff.mpr
        left
        rw [matchHere_iff pat after hafter]
        exact ⟨ws, post, hws, by simpa using hl⟩
      · apply Bool.or_eq_true_iff.mpr
        right
        apply ih.mpr
        refine ⟨pre', ws, post, hws, ?_⟩
        have : c :: cs = p0 :: (pre' ++ pat ++ ws ++ after :: post) := by simpa using hl
        injection this with h1 h2

theorem is_initializer_script_eq (t : Tag) :
    is_initializer_script t
      = (t.name = "script" && (t.getAttr "src").isNone
          && reSearch "window.onload".data '=' t.text
          && reSearch "SwaggerUIBundle".data '(' t.text) := by
  unfold is_initializer_script
  rcases hs : t.getAttr "src" with _ | v
  · by_cases h1 : t.name = "script"
    · by_cases h3 : reSearch "window.onload".data '=' t.text
      · by_cases h4 : reSearch "SwaggerUIBundle".data '(' t.text
        · simp [h1, hs, h3, h4]
        · simp [h1, hs, h3, h4]
      · simp [h1, hs, h3]
    · simp [h1, hs]
  · by_cases h1 : t.name = "script" <;> simp [h1, hs]

/-- C3: an element is selected as the initializer script iff it is a
`script`, has no `src` attribute, and its text matches both
`window\.onload\s*=` and `SwaggerUIBundle\s*\(` (literal pattern, then any
run of whitespace, then `=` resp. `(`). -/
theorem c3_initializer_selection (t : Tag) :
    is_initializer_script t = true ↔
      t.name = "script" ∧ t.getAttr "src" = none
      ∧ (∃ pre ws post, (∀ c ∈ ws, isSpace c = true)
          ∧ t.text = pre ++ "window.onload".data ++ ws ++ '=' :: post)
      ∧ (∃ pre ws post, (∀ c ∈ ws, isSpace c = true)
          ∧ t.text = pre ++ "SwaggerUIBundle".data ++ ws ++ '(' :: post) := by
  rw [is_initializer_script_eq]
  simp only [Bool.and_eq_true, decide_eq_true_eq, Option.isNone_iff_eq_none,
    reSearch_iff _ '=' (by decide) t.text, reSearch_iff _ '(' (by decide) t.text]
  tauto

theorem find?_setPair (k : String) (v : List Char) (l : List (String × List Char)) :
    (setPair k v l).find? (fun a => a.1 = k) = some (k, v) := by
  induction l with
  | nil => simp [setPair, List.find?]
  | cons kv rest ih =>
    obtain ⟨k', v'⟩ := kv
    by_cases h : k' = k
    · simp [setPair, h, List.find?]
    · simp only [setPair, if_neg h]
      rw [List.find?_cons_of_neg _ (by simp [h]), ih]

theorem getAttr_setAttr_self (t : Tag) (k : String) (v : List Char) :
    (t.setAttr k v).getAttr k = some v := by
  simp [Tag.setAttr, Tag.getAttr, find?_setPair]

theorem is_initializer_script_false_of_name (t : Tag) (h : t.name ≠ "script") :
    is_initializer_script t = false := by
  rw [is_initializer_script_eq]
  simp [h]

theorem is_initializer_script_false_of_src (t : Tag) (v : List Char)
    (h : t.getAttr "src" = some v) :
    is_initializer_script t = false := by
  rw [is_initializer_script_eq]
  simp [h]

/-- What one pass of either rewrite loop does to an element never changes
its name, its text, or whether it is the initializer script. -/
def StepKeeps (t t' : Tag) : Prop :=
  t'.name = t.name ∧ t'.text = t.text
    ∧ is_initializer_script t' = is_initializer_script t

theorem linkStep_keeps (t : Tag) : ∃ t', linkStep t = .ok t' ∧ StepKeeps t t' := by
  unfold linkStep
  by_cases hn : t.name = "link"
  · rw [if_pos hn]
    rcases hv : t.getAttr "href" with _ | v
    · exact ⟨t, rfl, rfl, rfl, rfl⟩
    · by_cases hsd : startsDotSlash v = true
      · obtain ⟨rest, rfl⟩ := (startsDotSlash_iff v).mp hsd
        refine ⟨t.setAttr "href" ("./node_modules/swagger-ui-dist/".data ++ rest),
          ?_, rfl, rfl, ?_⟩
        · simp [hsd, rewrite_link_dotSlash rest]
        · rw [is_initializer_script_false_of_name _ (by simp [Tag.setAttr, hn]),
            is_initializer_script_false_of_name _ (by simp [hn])]
      · refine ⟨t, ?_, rfl, rfl, rfl⟩
        simp [hv, hsd]
  · rw [if_neg hn]
    exact ⟨t, rfl, rfl, rfl, rfl⟩

theorem scriptStep_keeps (t : Tag) : ∃ t', scriptStep t = .ok t' ∧ StepKeeps t t' := by
  unfold scriptStep
  by_cases hn : t.name = "script"
  · rw [if_pos hn]
    rcases hv : t.getAttr "src" with _ | v
    · exact ⟨t, rfl, rfl, rfl, rfl⟩
    · by_cases hsd : startsDotSlash v = true
      · obtain ⟨rest, rfl⟩ := (startsDotSlash_iff v).mp hsd
        refine ⟨t.setAttr "src" ("./node_modules/swagger-ui-dist/".data ++ rest),
          ?_, rfl, rfl, ?_⟩
        · simp [hsd, rewrite_link_dotSlash rest]
        · rw [is_initializer_script_false_of_src _ _ (getAttr_setAttr_self t "src" _),
            is_initializer_script_false_of_src _ _ hv]
      · refine ⟨t, ?_, rfl, rfl, rfl⟩
        simp [hv, hsd]
  · rw [if_neg hn]
    exact ⟨t, rfl, rfl, rfl, rfl⟩

theorem mapExcept_keeps (f : Tag → Except Err Tag)
    (hf : ∀ t, ∃ t', f t = .ok t' ∧ StepKeeps t t') (ts : List Tag) :
    ∃ ts', mapExcept f ts = .ok ts' ∧ List.Forall₂ StepKeeps ts ts' := by
  induction ts with
  | nil => exact ⟨[], rfl, List.Forall₂.nil⟩
  | cons t ts ih =>
    obtain ⟨t', hft, hk⟩ := hf t
    obtain ⟨ts', hmap, hF⟩ := ih
    exact ⟨t' :: ts', by simp [mapExcept, hft, hmap], List.Forall₂.cons hk hF⟩

/-- The two rewrite loops never fail and act element by element: each input
element yields one output element two steps later. -/
theorem mapExcept_two (f g : Tag → Except Err Tag) (R : Tag → Tag → Prop)
    (h : ∀ t, ∃ t₁ t₂, f t = .ok t₁ ∧ g t₁ = .ok t₂ ∧ R t t₂) (ts : List Tag) :
    ∃ ts₁ ts₂, mapExcept f ts = .ok ts₁ ∧ mapExcept g ts₁ = .ok ts₂
      ∧ List.Forall₂ R ts ts₂ := by
  induction ts with
  | nil => exact ⟨[], [], rfl, rfl, List.Forall₂.nil⟩
  | cons t ts ih =>
    obtain ⟨t₁, t₂, hf, hg, hR⟩ := h t
    obtain ⟨ts₁, ts₂, hfs, hgs, hRs⟩ := ih
    exact ⟨t₁ :: ts₁, t₂ :: ts₂, by simp [mapExcept, hf, hfs],
      by simp [mapExcept, hg, hgs], List.Forall₂.cons hR hRs⟩

/-- C4: in any document — also one that contains `./`-matching elements the
loops do rewrite — every `link` whose `href` does not start `./` and every
`script` whose `src` does not start `./` (elements lacking the attribute
included) comes out of the two rewrite loops with its attributes — indeed
the whole element — unchanged, element by element. -/
theorem c4_non_relative_unchanged (ts : List Tag) :
    ∃ ts₁ ts₂, mapExcept linkStep ts = .ok ts₁ ∧ mapExcept scriptStep ts₁ = .ok ts₂
      ∧ List.Forall₂ (fun t t' =>
          ((t.name = "link" → ∀ v, t.getAttr "href" = some v → startsDotSlash v = false)
            ∧ (t.name = "script" → ∀ v, t.getAttr "src" = some v → startsDotSlash v = false))
          → t' = t) ts ts₂ := by
  apply mapExcept_two
  intro t
  by_cases hm : (t.name = "link" → ∀ v, t.getAttr "href" = some v → startsDotSlash v = false)
    ∧ (t.name = "script" → ∀ v, t.getAttr "src" = some v → startsDotSlash v = false)
  · exact ⟨t, t, linkStep_ok_self t hm.1, scriptStep_ok_self t hm.2, fun _ => rfl⟩
  · obtain ⟨t₁, h₁, _⟩ := linkStep_keeps t
    obtain ⟨t₂, h₂, _⟩ := scriptStep_keeps t₁
    exact ⟨t₁, t₂, h₁, h₂, fun hc => absurd hc hm⟩

theorem c4_witness :
    ∃ ts₁ ts₂,
      mapExcept linkStep
        [{ name := "link", attrs := [("href", "./swagger-ui.css".data)], text := [] },
         { name := "link", attrs := [("href", "https://cdn.example/x.css".data)], text := [] },
         { name := "script", attrs := [("src", "./swagger-ui-bundle.js".data)], text := [] },
         { name := "script", attrs := [("src", "/abs/y.js".data)], text := [] },
         { name := "script", attrs := [], text := "window.onload = f".data }] = .ok ts₁
      ∧ mapExcept scriptStep ts₁ = .ok ts₂
      ∧ List.Forall₂ (fun t t' =>
          ((t.name = "link" → ∀ v, t.getAttr "href" = some v → startsDotSlash v = false)
            ∧ (t.name = "script" → ∀ v, t.getAttr "src" = some v → startsDotSlash v = false))
          → t' = t)
        [{ name := "link", attrs := [("href", "./swagger-ui.css".data)], text := [] },
         { name := "link", attrs := [("href", "https://cdn.example/x.css".data)], text := [] },
         { name := "script", attrs := [("src", "./swagger-ui-bundle.js".data)], text := [] },
         { name := "script", attrs := [("src", "/abs/y.js".data)], text := [] },
         { name := "script", attrs := [], text := "window.onload = f".data }] ts₂ :=
  c4_non_relative_unchanged
    [{ name := "link", attrs := [("href", "./swagger-ui.css".data)], text := [] },
     { name := "link", attrs := [("href", "https://cdn.example/x.css".data)], text := [] },
     { name := "script", attrs := [("src", "./swagger-ui-bundle.js".data)], text := [] },
     { name := "script", attrs := [("src", "/abs/y.js".data)], text := [] },
     { name := "script", attrs := [], text := "window.onload = f".data }]

theorem StepKeeps.trans {a b c : Tag} (h1 : StepKeeps a b) (h2 : StepKeeps b c) :
    StepKeeps a c :=
  ⟨h2.1.trans h1.1, h2.2.1.trans h1.2.1, h2.2.2.trans h1.2.2⟩

theorem forall₂_trans_keeps {l₁ l₂ l₃ : List Tag}
    (h1 : List.Forall₂ StepKeeps l₁ l₂) (h2 : List.Forall₂ StepKeeps l₂ l₃) :
    List.Forall₂ StepKeeps l₁ l₃ := by
  induction h1 generalizing l₃ with
  | nil => cases h2; exact List.Forall₂.nil
  | cons hk hF ih =>
    cases h2 with
    | cons hk2 hF2 => exact List.Forall₂.cons (hk.trans hk2) (ih hF2)

theorem filter_init_length_eq {ts ts' : List Tag}
    (h : List.Forall₂ StepKeeps ts ts') :
    (ts'.filter (fun t => is_initializer_script t)).length
      = (ts.filter (fun t => is_initializer_script t)).length := by
  induction h with
  | nil => rfl
  | cons hk hF ih =>
    rename_i a b l₁ l₂
    by_cases hp : is_initializer_script a = true
    · simp [List.filter_cons, hp, hk.2.2, ih]
    · simp only [Bool.not_eq_true] at hp
      simp [List.filter_cons, hp, hk.2.2, ih]

theorem replaceFirst_forall₂ (p : Tag → Bool) (f : Tag → Tag) (ts : List Tag)
    (h : (ts.filter p).length = 1) :
    List.Forall₂ (fun t t' => (p t = true → t' = f t) ∧ (p t = false → t' = t))
      ts (replaceFirst p f ts) := by
  induction ts with
  | nil => exact List.Forall₂.nil
  | cons t ts ih =>
    by_cases hp : p t = true
    · have hzero : (ts.filter p).length = 0 := by
        simp only [List.filter_cons, hp, if_true, List.length_cons] at h
        omega
      have htail : ∀ x ∈ ts, p x = false := by
        have hnil : ts.filter p = [] := List.length_eq_zero.mp hzero
        intro x hx
        by_contra hc
        simp only [Bool.not_eq_false] at hc
        have : x ∈ ts.filter p := List.mem_filter.mpr ⟨hx, hc⟩
        simp [hnil] at this
      simp only [replaceFirst, hp, if_true]
      refine List.Forall₂.cons ⟨fun _ => rfl, fun hf => absurd hp (by simp [hf])⟩ ?_
      rw [List.forall₂_same]
      intro x hx
      exact ⟨fun hpx => absurd (htail x hx) (by simp [hpx]), fun _ => rfl⟩
    · simp only [Bool.not_eq_true] at hp
      have h' : (ts.filter p).length = 1 := by
        simpa [List.filter_cons, hp] using h
      simp only [replaceFirst, hp, Bool.false_eq_true, if_false]
      exact List.Forall₂.cons
        ⟨fun ht => absurd ht (by simp [hp]), fun _ => rfl⟩ (ih h')

theorem forall₂_comp {R S T : Tag → Tag → Prop}
    (hcomp : ∀ a b c, R a b → S b c → T a c) :
    ∀ {l₁ l₂ l₃ : List Tag}, List.Forall₂ R l₁ l₂ → List.Forall₂ S l₂ l₃ →
      List.Forall₂ T l₁ l₃ := by
  intro l₁ l₂ l₃ h1
  induction h1 generalizing l₃ with
  | nil =>
    intro h2
    cases h2
    exact List.Forall₂.nil
  | cons hR hF ih =>
    intro h2
    cases h2 with
    | cons hS hF2 => exact List.Forall₂.cons (hcomp _ _ _ hR hS) (ih hF2)

/-- On a document with a title, the run reaches the `assert`: there is a
rewritten tag list `tags₂` related elementwise to the input, the count of
initializer scripts is unchanged by the rewrites, and the run succeeds (with
the title replaced and the first initializer's text replaced) exactly when
that count is 1, aborting on the `assert` otherwise. -/
theorem run_eq (d : Doc) (s : List Char) (ht : d.title = some s) :
    ∃ tags₂, List.Forall₂ StepKeeps d.tags tags₂
      ∧ (tags₂.filter (fun t => is_initializer_script t)).length
          = (d.tags.filter (fun t => is_initializer_script t)).length
      ∧ run d = (if (d.tags.filter (fun t => is_initializer_script t)).length = 1
          then .ok { title := some "Encircle Public API".data,
                     tags := replaceFirst (fun t => is_initializer_script t)
                       (fun t => { t with text := replacement_template }) tags₂ }
          else .error .initCountAssert) := by
  obtain ⟨t1, h1, f1⟩ := mapExcept_keeps linkStep linkStep_keeps d.tags
  obtain ⟨t2, h2, f2⟩ := mapExcept_keeps scriptStep scriptStep_keeps t1
  have fc := forall₂_trans_keeps f1 f2
  have hlen := filter_init_length_eq fc
  refine ⟨t2, fc, hlen, ?_⟩
  unfold run
  rw [ht]
  simp only [h1, h2, hlen]

/-- A qualifying initializer script (inline, with both markers). -/
def exInit : Tag :=
  { name := "script", attrs := [],
    text := "window.onload = function() \x7b SwaggerUIBundle(\x7b\x7d) \x7d".data }

/-- A stylesheet link with a relative href. -/
def exLink : Tag :=
  { name := "link",
    attrs := [("href", "./swagger-ui.css".data), ("rel", "stylesheet".data)],
    text := [] }

/-- A script sourced through a relative path (so not inline). -/
def exScript : Tag :=
  { name := "script", attrs := [("src", "./swagger-ui-bundle.js".data)], text := [] }

/-- A well-formed input document: one title, one qualifying initializer. -/
def exDoc : Doc := { title := some "Swagger UI".data, tags := [exLink, exScript, exInit] }

/-- The same document with the initializer script missing entirely. -/
def noInitDoc : Doc := { title := some "Swagger UI".data, tags := [exLink, exScript] }

/-- The same document with no title element. -/
def noTitleDoc : Doc := { title := none, tags := [exLink, exScript, exInit] }

/-- C2: when the number of elements satisfying the initializer predicate is
not exactly one, the run aborts — and, whenever the title stage got past
(the only earlier failure point), it aborts precisely on the
`assert len(init_scripts) == 1` assertion — so the output file is never
opened. -/
theorem c2_init_count_asserted (d : Doc)
    (h : (d.tags.filter (fun t => is_initializer_script t)).length ≠ 1) :
    (run d).isOk = false
    ∧ (d.title.isSome = true → run d = .error .initCountAssert) := by
  rcases ht : d.title with _ | s
  · have hr : run d = .error .titleNullAccess := by
      unfold run
      rw [ht]
    constructor
    · rw [hr]
      rfl
    · intro hs
      simp at hs
  · obtain ⟨t2, _, _, hrun⟩ := run_eq d s ht
    rw [hrun, if_neg h]
    exact ⟨rfl, fun _ => rfl⟩

theorem c2_witness :
    (run noInitDoc).isOk = false
    ∧ (noInitDoc.title.isSome = true → run noInitDoc = .error .initCountAssert) :=
  c2_init_count_asserted noInitDoc (by decide)

/-- C5: on an input with exactly one qualifying initializer script, the run
succeeds and, element by element, the qualifying script's text becomes the
fixed template while every other element's text is byte-identical to its
input text. -/
theorem c5_only_initializer_text_replaced (d : Doc) (s : List Char)
    (ht : d.title = some s)
    (hc : (d.tags.filter (fun t => is_initializer_script t)).length = 1) :
    ∃ tags', run d = .ok { title := some "Encircle Public API".data, tags := tags' }
      ∧ List.Forall₂ (fun t t' =>
          (is_initializer_script t = true → t'.text = replacement_template)
          ∧ (is_initializer_script t = false → t'.text = t.text)) d.tags tags' := by
  obtain ⟨t2, fc, hlen, hrun⟩ := run_eq d s ht
  rw [hrun, if_pos hc]
  refine ⟨_, rfl, ?_⟩
  have hc2 : (t2.filter (fun t => is_initializer_script t)).length = 1 := by
    rw [hlen]
    exact hc
  have hrep := replaceFirst_forall₂ (fun t => is_initializer_script t)
    (fun t => { t with text := replacement_template }) t2 hc2
  refine forall₂_comp ?_ fc hrep
  rintro a b c ⟨hname, htext, hinit⟩ ⟨hyes, hno⟩
  constructor
  · intro ha
    rw [hyes (show is_initializer_script b = true by rw [hinit, ha])]
  · intro ha
    rw [hno (show is_initializer_script b = false by rw [hinit, ha]), htext]

theorem c5_witness :
    ∃ tags', run exDoc = .ok { title := some "Encircle Public API".data, tags := tags' }
      ∧ List.Forall₂ (fun t t' =>
          (is_initializer_script t = true → t'.text = replacement_template)
          ∧ (is_initializer_script t = false → t'.text = t.text)) exDoc.tags tags' :=
  c5_only_initializer_text_replaced exDoc "Swagger UI".data rfl (by decide)

/-- C6: whenever a run writes an output document, its title text is exactly
`Encircle Public API`. -/
theorem c6_title_replaced (d d' : Doc) (h : run d = .ok d') :
    d'.title = some "Encircle Public API".data := by
  rcases ht : d.title with _ | s
  · have hr : run d = .error .titleNullAccess := by
      unfold run
      rw [ht]
    rw [hr] at h
    exact absurd h (by simp)
  · obtain ⟨t2, _, _, hrun⟩ := run_eq d s ht
    rw [hrun] at h
    by_cases hc : (d.tags.filter (fun t => is_initializer_script t)).length = 1
    · rw [if_pos hc] at h
      injection h with h'
      rw [← h']
    · rw [if_neg hc] at h
      exact absurd h (by simp)

theorem c6_witness :
    (Doc.mk (some "Encircle Public API".data)
      [exLink.setAttr "href" "./node_modules/swagger-ui-dist/swagger-ui.css".data,
       exScript.setAttr "src" "./node_modules/swagger-ui-dist/swagger-ui-bundle.js".data,
       { exInit with text := replacement_template }]).title
      = some "Encircle Public API".data :=
  c6_title_replaced exDoc
    (Doc.mk (some "Encircle Public API".data)
      [exLink.setAttr "href" "./node_modules/swagger-ui-dist/swagger-ui.css".data,
       exScript.setAttr "src" "./node_modules/swagger-ui-dist/swagger-ui-bundle.js".data,
       { exInit with text := replacement_template }])
    (by rfl)

/-- C7 (amended): when the input document has no title element the run does
fail fatally before any output is produced, but by the unhandled
`AttributeError` of `soup.head.title.string = ...` — a null access, not one
of the script's `assert` statements. -/
theorem c7_missing_title_null_access (d : Doc) (h : d.title = none) :
    run d = .error .titleNullAccess ∧ Err.isAssert .titleNullAccess = false := by
  constructor
  · unfold run
    rw [h]
  · rfl

theorem c7_witness :
    run noTitleDoc = .error .titleNullAccess ∧ Err.isAssert .titleNullAccess = false :=
  c7_missing_title_null_access noTitleDoc rfl

/-- C7 counterexample: on a concrete titleless document the run aborts with
no output, but through the null access — no assertion is involved, refuting
the claim that the missing-title failure is `enforced via assertion`. -/
theorem c7_counterexample :
    (run noTitleDoc).isOk = false
    ∧ ∀ e, run noTitleDoc = .error e → Err.isAssert e = false := by
  constructor
  · rfl
  · intro e he
    have h0 : run noTitleDoc = Except.error Err.titleNullAccess := rfl
    rw [h0] at he
    injection he with h'
    rw [← h']
    rfl

/-- C9 counterexample: with the identity decode (what `decodeURIComponent`
does on percent-free ASCII input), the pair `k=a=b` records the value `a` —
the segment between the first and second `=`, JS `pair[1]` — not the `b`
that taking the last `=`-split segment would give. -/
theorem c9_counterexample :
    getKey "k".data (parseQuery id "k=a=b".data) = some "a".data
    ∧ "a".data ≠ "b".data := by
  constructor
  · decide
  · decide

/-- C9 (amended): for a `&`-free pair `k=v1=v2` with more than one `=`, the
recorded value is the decode of the first value segment (between the first
and second `=`, JS `pair[1]`); everything after the second `=` is dropped.
A pair with no `=` records the decode of the empty string. -/
theorem c9_amended_first_value_segment (decode : List Char → List Char)
    (k v1 v2 : List Char)
    (hk : ∀ c ∈ k, c ≠ '&' ∧ c ≠ '=' ∧ c ≠ '?')
    (h1 : ∀ c ∈ v1, c ≠ '&' ∧ c ≠ '=')
    (h2 : ∀ c ∈ v2, c ≠ '&' ∧ c ≠ '=') :
    parseQuery decode (k ++ '=' :: (v1 ++ '=' :: v2)) = [(decode k, decode v1)]
    ∧ parseQuery decode k = [(decode k, decode [])] := by
  have hheadk : ∀ w : List Char, ¬ (k ++ '=' :: w).head? = some '?' := by
    intro w
    cases k with
    | nil => simp
    | cons c cs =>
      have := hk c (List.mem_cons_self c cs)
      simp [this.2.2]
  constructor
  · have hamp : splitChar '&' (k ++ '=' :: (v1 ++ '=' :: v2))
        = [k ++ '=' :: (v1 ++ '=' :: v2)] := by
      apply splitChar_no_sep
      intro c hc
      rcases List.mem_append.mp hc with h | h
      · exact (hk c h).1
      · rcases List.mem_cons.mp h with rfl | h
        · decide
        · rcases List.mem_append.mp h with h | h
          · exact (h1 c h).1
          · rcases List.mem_cons.mp h with rfl | h
            · decide
            · exact (h2 c h).1
    have heq : splitChar '=' (k ++ '=' :: (v1 ++ '=' :: v2)) = [k, v1, v2] := by
      rw [splitChar_append_sep _ _ _ (fun c hc => (hk c hc).2.1),
        splitChar_append_sep _ _ _ (fun c hc => (h1 c hc).2),
        splitChar_no_sep _ _ (fun c hc => (h2 c hc).2)]
    simp only [parseQuery]
    rw [if_neg (hheadk (v1 ++ '=' :: v2)), hamp]
    simp only [List.foldl_cons, List.foldl_nil, heq]
    rfl
  · have hheadk2 : ¬ k.head? = some '?' := by
      cases k with
      | nil => simp
      | cons c cs =>
        have := hk c (List.mem_cons_self c cs)
        simp [this.2.2]
    have hamp : splitChar '&' k = [k] :=
      splitChar_no_sep _ _ (fun c hc => (hk c hc).1)
    have heq : splitChar '=' k = [k] :=
      splitChar_no_sep _ _ (fun c hc => (hk c hc).2.1)
    simp only [parseQuery]
    rw [if_neg hheadk2, hamp]
    simp only [List.foldl_cons, List.foldl_nil, heq]
    rfl

theorem c9_witness :
    parseQuery id ("k".data ++ '=' :: ("a".data ++ '=' :: "b".data))
      = [(id "k".data, id "a".data)]
    ∧ parseQuery id "k".data = [(id "k".data, id [])] :=
  c9_amended_first_value_segment id "k".data "a".data "b".data
    (by decide) (by decide) (by decide)

/-- C10: the modelled pipeline is a function of the parsed input document
alone — `run` takes no arguments, environment, time or randomness — so
byte-identical inputs give byte-identical outputs. -/
theorem c10_deterministic (d₁ d₂ : Doc) (h : d₁ = d₂) : run d₁ = run d₂ := by
  rw [h]

theorem c10_witness : run exDoc = run exDoc :=
  c10_deterministic exDoc exDoc rfl
